import Mathlib

/-!
Verification development for the resume-advisor backend.

The Python modules `api/utils.py` and the services module are shallowly
embedded: request JSON values become an inductive `Value`, dictionaries
become insertion-ordered association lists, fallible operations return
`Option`/sum types, and external collaborators (the LLM client, the HTTP
fetcher, the HTML parser) are modelled as explicit inputs carrying their
outcome.  The SQL schema of `init.sql` (library/override variant) becomes
Lean structures.
-/

/-- A JSON-like Python value as it appears in request data
(`None`, booleans, integers, strings, lists, dicts). -/
inductive Value where
  | vNone : Value
  | vBool : Bool → Value
  | vInt : Int → Value
  | vStr : String → Value
  | vList : List Value → Value
  | vDict : List (String × Value) → Value

/-- The membership test `data[field] in (None, '', [])` from
`validate_required_fields`: Python `==` equates a standard JSON value with
`None`, `''` or `[]` exactly when it is that very value. -/
def isEmptyVal : Value → Bool
  | Value.vNone => true
  | Value.vStr s => s == ""
  | Value.vList l => l.isEmpty
  | _ => false

/-- The check `field not in data or data[field] in (None, '', [])`. -/
def fieldBad (data : List (String × Value)) (field : String) : Bool :=
  match data.lookup field with
  | none => true
  | some v => isEmptyVal v

/-- Embedding of `validate_required_fields` from `api/utils.py`: walks the required
field names in order and raises `ValueError("Missing required field: f")`
at the first missing or empty one.  The raise is modelled by returning
`some message`; falling through the loop is `none`. -/
def validate_required_fields (data : List (String × Value)) :
    List String → Option String
  | [] => none
  | field :: rest =>
    if fieldBad data field then
      some ("Missing required field: " ++ field)
    else
      validate_required_fields data rest

/-- A JSON value in a response body (bools, strings, numbers suffice for
the response-shaping helpers). -/
inductive JVal where
  | jBool : Bool → JVal
  | jStr : String → JVal
  | jNum : Int → JVal
deriving DecidableEq

/-- A JSON object as an insertion-ordered association list, as Python
dicts are. -/
abbrev JObj := List (String × JVal)

/-- Python `d[k] = v` on an insertion-ordered dict: overwrite in place
when the key exists, append otherwise. -/
def setKey (p : JObj) (k : String) (v : JVal) : JObj :=
  if p.any (fun kv => kv.1 == k) then
    p.map (fun kv => if kv.1 = k then (k, v) else kv)
  else
    p ++ [(k, v)]

/-- Python `payload.update(data)`: assign each entry of `data` in order. -/
def dictUpdate (p : JObj) : JObj → JObj
  | [] => p
  | kv :: rest => dictUpdate (setKey p kv.1 kv.2) rest

/-- Embedding of `success_response` from `api/utils.py`: the payload starts as the dict with `success` mapped to `True`,
then `payload.update(data)` when `data` is truthy, returned with the
status code.  An absent or empty `data` is the empty list. -/
def success_response (data : JObj) (status : Nat) : JObj × Nat :=
  let payload : JObj := [("success", JVal.jBool true)]
  if data.isEmpty then (payload, status) else (dictUpdate payload data, status)

/-- Embedding of `error_response` from `api/utils.py`. -/
def error_response (message : String) (status : Nat) : JObj × Nat :=
  ([("success", JVal.jBool false), ("error", JVal.jStr message)], status)

example : validate_required_fields [("a", Value.vStr "x")] ["a", "b"] =
    some "Missing required field: b" := by decide
example : success_response [("id", JVal.jNum 7)] 201 =
    ([("success", JVal.jBool true), ("id", JVal.jNum 7)], 201) := by decide
example : success_response [("success", JVal.jBool false)] 200 =
    ([("success", JVal.jBool false)], 200) := by decide

/-- Modelled from the spec: the bcrypt library is an external dependency,
"opaque one-way hash with a per-call random salt".  A stored hash carries
the salt it was produced with and a digest that is a deterministic
function of plaintext and salt. -/
structure BcryptHash where
  salt : Nat
  digest : Nat
deriving DecidableEq

/-- Modelled from the spec: the digest component of `bcrypt.hashpw`, an
arbitrary deterministic function of the plaintext and the salt. -/
def bcryptDigest (password : String) (salt : Nat) : Nat :=
  password.toList.foldl (fun a c => a * 131 + c.toNat + 1) salt

/-- Model of `bcrypt.hashpw(password.encode(), salt)`: the hash embeds the salt and
the digest computed from plaintext and salt. -/
def bcryptHashpw (password : String) (salt : Nat) : BcryptHash :=
  BcryptHash.mk salt (bcryptDigest password salt)

/-- Model of `bcrypt.checkpw(password.encode(), hashed)`: recompute the digest with
the stored hash's salt and compare. -/
def bcryptCheckpw (password : String) (hashed : BcryptHash) : Bool :=
  bcryptDigest password hashed.salt == hashed.digest

/-- Embedding of `hash_password` from `api/utils.py`, which is `bcrypt.hashpw(password, bcrypt.gensalt())`.
The fresh random salt drawn by `gensalt()` for this call is the explicit
`salt` argument. -/
def hash_password (password : String) (salt : Nat) : BcryptHash :=
  bcryptHashpw password salt

/-- Embedding of `verify_password` from `api/utils.py`. -/
def verify_password (password : String) (hashed : BcryptHash) : Bool :=
  bcryptCheckpw password hashed

/-- Python `\w` on ASCII text: letters, digits and underscore. -/
def isWordChar (c : Char) : Bool :=
  c.isAlpha || c.isDigit || c == '_'

/-- The character class `[\w\.-]` of the email pattern. -/
def isLocalChar (c : Char) : Bool :=
  isWordChar c || c == '.' || c == '-'

/-- Python `$` matches at the end of the string or just before a single
trailing newline, so `re.match` with a final `$` first discards one trailing
newline if present. -/
def stripOneTrailingNewline (l : List Char) : List Char :=
  if l.getLast? == some '\n' then l.dropLast else l

/-- The sub-match of `[\w\.-]+\.\w+` against the whole domain part: the
greedy engine succeeds exactly when the text after the last dot is a
non-empty run of word characters and something from the class precedes
that dot.  Working from the reversed list finds that last dot. -/
def matchDomainPart (d : List Char) : Bool :=
  d.all isLocalChar &&
    !(d.reverse.takeWhile isWordChar).isEmpty &&
    (match d.reverse.dropWhile isWordChar with
     | [] => false
     | dot :: before => dot == '.' && !before.isEmpty)

/-- Full match of `^[\w\.-]+@[\w\.-]+\.\w+$` against a character list with
the trailing newline already stripped: the local part is the maximal
prefix of class characters (the class excludes `@`), then a literal `@`,
then the domain part. -/
def matchEmailPattern (l : List Char) : Bool :=
  match l.dropWhile isLocalChar with
  | [] => false
  | c0 :: domain =>
    c0 == '@' && !(l.takeWhile isLocalChar).isEmpty && matchDomainPart domain

/-- Embedding of `validate_email` from `api/utils.py`:
`re.match` of the pattern `^[\w\.-]+@[\w\.-]+\.\w+$` tested against `None`. -/
def validate_email (email : String) : Bool :=
  matchEmailPattern (stripOneTrailingNewline email.toList)

example : validate_email "john.doe@mail.co" = true := by decide
example : validate_email "a@b.c" = true := by decide
example : validate_email "a@b.c\n" = true := by decide
example : validate_email "a@bc" = false := by decide
example : validate_email "@b.c" = false := by decide
example : validate_email "a@.c" = false := by decide
example : validate_email "a@b." = false := by decide
example : validate_email "a@b.c-" = false := by decide
example : validate_email "a b@c.d" = false := by decide

/-- The outcome of an outbound call inside a `try` block: `ok` with the
produced value, or `error` with the detail text of the raised exception. -/
abbrev CallOutcome (α : Type) := Except String α

/-- A response of an LLM helper: either the payload dict of the success
path, or the `(jsonify(...), status)` pair of `error_response`. -/
inductive ServiceResult where
  | payload : JObj → ServiceResult
  | failure : JObj × Nat → ServiceResult
deriving DecidableEq

namespace LLMService

/-- The prompt built by `smart_fill` (dict arguments are embedded through
their textual representation, as the f-string does). -/
def smartFillPrompt (ty : String) (input_data : String) : String :=
  "Generate a concise, achievement-focused " ++ ty ++ " description " ++
    "based on the following input:\n\n" ++ input_data ++ "\n\n" ++
    "Output one professional sentence suitable for a resume."

/-- Embedding of `LLMService.smart_fill` from the services module; the external
`openai.ChatCompletion.create` collaborator is the `llmCall` argument,
mapping the prompt to its outcome.  On success the stripped content
becomes `{"generated_description": ...}`; any exception is caught,
logged, and turned into
`error_response("Failed to generate description", 500)`. -/
def smart_fill (ty : String) (input_data : String)
    (llmCall : String → CallOutcome String) : ServiceResult :=
  match llmCall (smartFillPrompt ty input_data) with
  | Except.ok content =>
    ServiceResult.payload [("generated_description", JVal.jStr content.trim)]
  | Except.error _ =>
    ServiceResult.failure (error_response "Failed to generate description" 500)

/-- The prompt built by `generate_cover_letter`. -/
def coverLetterPrompt (user_data job_data resume_data : String) : String :=
  "Write a professional cover letter draft based on the following data:\n\n" ++
    "User Info:\n" ++ user_data ++ "\n\n" ++
    "Job Posting:\n" ++ job_data ++ "\n\n" ++
    "Resume Summary:\n" ++ resume_data ++ "\n\n" ++
    "The tone should be formal but engaging, suitable for applying to a top company."

/-- Embedding of `LLMService.generate_cover_letter`: same shape, producing
`{"cover_letter_draft": ...}` on success and
`error_response("Failed to generate cover letter", 500)` on any caught
exception. -/
def generate_cover_letter (user_data job_data resume_data : String)
    (llmCall : String → CallOutcome String) : ServiceResult :=
  match llmCall (coverLetterPrompt user_data job_data resume_data) with
  | Except.ok content =>
    ServiceResult.payload [("cover_letter_draft", JVal.jStr content.trim)]
  | Except.error _ =>
    ServiceResult.failure (error_response "Failed to generate cover letter" 500)

end LLMService

/-- Splits a text into its maximal runs of word characters, the carrier
of `\b`-delimited matching. -/
def wordRunsAux : List Char → List Char → List (List Char)
  | [], acc => if acc.isEmpty then [] else [acc.reverse]
  | c :: cs, acc =>
    if isWordChar c then wordRunsAux cs (c :: acc)
    else if acc.isEmpty then wordRunsAux cs [] else acc.reverse :: wordRunsAux cs []

def wordRuns (text : List Char) : List (List Char) :=
  wordRunsAux text []

/-- A maximal word run matched by `\b[A-Z][a-zA-Z]+\b`: an upper-case
letter followed by at least one letter, with nothing but letters in the
run (a digit or underscore in the run breaks both boundaries). -/
def isCapWord : List Char → Bool
  | [] => false
  | c :: rest => c.isUpper && !rest.isEmpty && rest.all Char.isAlpha

/-- Embedding of `re.findall` with the pattern `\b[A-Z][a-zA-Z]+\b`. -/
def findCapWords (text : List Char) : List (List Char) :=
  (wordRuns text).filter isCapWord

/-- Result of `ScraperService.extract_keywords`: the keywords dict, or an
`error_response` pair. -/
inductive KeywordsResult where
  | ok : List (List Char) → KeywordsResult
  | err : JObj × Nat → KeywordsResult
deriving DecidableEq

namespace ScraperService

/-- Embedding of `ScraperService.extract_keywords` from the services module, after the
optional URL fetch has produced the text (`none` models absent content):
falsy text gives `error_response(..., 400)`, otherwise the regex matches
of length above 2 are deduplicated and truncated to 20.  Python's
`list(set(...))` order is unspecified; the model keeps first
occurrences. -/
def extract_keywords (text : Option (List Char)) : KeywordsResult :=
  match text with
  | none =>
    KeywordsResult.err (error_response "No content provided for keyword extraction" 400)
  | some t =>
    if t.isEmpty then
      KeywordsResult.err (error_response "No content provided for keyword extraction" 400)
    else
      KeywordsResult.ok
        (((findCapWords t).filter (fun w => decide (2 < w.length))).dedup.take 20)

end ScraperService

/-- The parsed page handed to `scrape_job_posting`, as the external fetch
and BeautifulSoup produce it: the text of the first `h1` tag if any, the
text of the first `title` tag if any, the first text node matching
`Company|Employer` if any, and the page's full text. -/
structure SoupPage where
  h1 : Option String
  titleTag : Option String
  companyText : Option String
  fullText : String

/-- The dict returned by `ScraperService.scrape_job_posting` on the
success path. -/
structure JobPosting where
  title : String
  company : String
  description : String
deriving DecidableEq

namespace ScraperService

/-- Embedding of `ScraperService.scrape_job_posting` on a fetched page:
`soup.find("h1") or soup.find("title")` picks the first present tag;
a missing tag falls back to `"Untitled"`, a missing or falsy (empty)
company text to `"Unknown Company"`; the description is the page text
truncated to 1500 characters. -/
def scrape_job_posting (page : SoupPage) : JobPosting :=
  JobPosting.mk
    (match page.h1.orElse (fun _ => page.titleTag) with
     | some t => t.trim
     | none => "Untitled")
    (match page.companyText with
     | some c => if c = "" then "Unknown Company" else c.trim
     | none => "Unknown Company")
    ((page.fullText.toList.take 1500).asString)

end ScraperService

example : ScraperService.extract_keywords
    (some "Senior Rust Engineer at Acme, Go or C".toList) =
    KeywordsResult.ok ["Senior".toList, "Rust".toList, "Engineer".toList,
      "Acme".toList] := by decide
example : ScraperService.extract_keywords (some []) =
    KeywordsResult.err (error_response "No content provided for keyword extraction" 400) := by
  decide
example : ScraperService.scrape_job_posting (SoupPage.mk none none none "hi") =
    JobPosting.mk "Untitled" "Unknown Company" "hi" := by decide

/-- A row of `lib_exp_bullets` from `init.sql`. -/
structure LibExpBullet where
  id : Nat
  experience_id : Nat
  position : Int
  text : String
deriving DecidableEq

/-- A row of `resume_exp_bullet_overrides` from `init.sql`:
`text_override` is a nullable column. -/
structure ResumeExpBulletOverride where
  id : Nat
  resume_experience_id : Nat
  lib_exp_bullet_id : Nat
  position : Int
  text_override : Option String
deriving DecidableEq

/-- A row of `lib_proj_bullets` from `init.sql`. -/
structure LibProjBullet where
  id : Nat
  project_id : Nat
  position : Int
  text : String
deriving DecidableEq

/-- A row of `resume_proj_bullet_overrides` from `init.sql`. -/
structure ResumeProjBulletOverride where
  id : Nat
  resume_project_id : Nat
  lib_proj_bullet_id : Nat
  position : Int
  text_override : Option String
deriving DecidableEq

/-- Lookup of a library experience bullet by primary key in the current
table state. -/
def findLibExpBullet (lib : List LibExpBullet) (bid : Nat) : Option LibExpBullet :=
  lib.find? (fun b => b.id == bid)

/-- Lookup of a library project bullet by primary key. -/
def findLibProjBullet (lib : List LibProjBullet) (bid : Nat) : Option LibProjBullet :=
  lib.find? (fun b => b.id == bid)

/-- Modelled from the spec: the render/export resolution logic is out of
scope of the source (only the `resume_exp_bullet_overrides` table exists
in `init.sql`); per the spec, a bullet override's effective text is "the
override string if present and non-empty, else the text of the referenced
library bullet", read from the live library at resolve time, and
resolution fails closed (`none`) when the referenced library bullet no
longer exists. -/
def resolveExpOverride (lib : List LibExpBullet)
    (o : ResumeExpBulletOverride) : Option String :=
  match findLibExpBullet lib o.lib_exp_bullet_id with
  | none => none
  | some b =>
    match o.text_override with
    | some s => if s = "" then some b.text else some s
    | none => some b.text

/-- Modelled from the spec: resolution of a project bullet override, the
project-side twin of `resolveExpOverride`. -/
def resolveProjOverride (lib : List LibProjBullet)
    (o : ResumeProjBulletOverride) : Option String :=
  match findLibProjBullet lib o.lib_proj_bullet_id with
  | none => none
  | some b =>
    match o.text_override with
    | some s => if s = "" then some b.text else some s
    | none => some b.text

/-- Editing the text of a library experience bullet in place (an
`UPDATE lib_exp_bullets SET text = ... WHERE id = ...`). -/
def editLibExpBulletText (lib : List LibExpBullet) (bid : Nat)
    (newText : String) : List LibExpBullet :=
  lib.map (fun b => if b.id = bid then
    LibExpBullet.mk b.id b.experience_id b.position newText else b)

/-- Editing the text of a library project bullet in place. -/
def editLibProjBulletText (lib : List LibProjBullet) (bid : Nat)
    (newText : String) : List LibProjBullet :=
  lib.map (fun b => if b.id = bid then
    LibProjBullet.mk b.id b.project_id b.position newText else b)

example : resolveExpOverride
    [LibExpBullet.mk 1 1 0 "Built X", LibExpBullet.mk 2 1 1 "Shipped Y"]
    (ResumeExpBulletOverride.mk 10 5 2 1 (some "Shipped Y to 10k users")) =
    some "Shipped Y to 10k users" := by decide
example : resolveExpOverride
    [LibExpBullet.mk 1 1 0 "Built X", LibExpBullet.mk 2 1 1 "Shipped Y"]
    (ResumeExpBulletOverride.mk 10 5 1 0 none) = some "Built X" := by decide
example : resolveExpOverride [] (ResumeExpBulletOverride.mk 10 5 1 0 none) =
    none := by decide

theorem validate_none_of_no_bad (data : List (String × Value)) :
    ∀ fields : List String, (∀ g ∈ fields, fieldBad data g = false) →
    validate_required_fields data fields = none := by
  intro fields h
  induction fields with
  | nil => rfl
  | cons f rest ih =>
    have hf : fieldBad data f = false := h f (List.mem_cons_self f rest)
    simp only [validate_required_fields, hf, Bool.false_eq_true, if_false]
    exact ih (fun g hg => h g (List.mem_cons_of_mem f hg))

theorem no_bad_of_validate_none (data : List (String × Value)) :
    ∀ fields : List String, validate_required_fields data fields = none →
    ∀ g ∈ fields, fieldBad data g = false := by
  intro fields h
  induction fields with
  | nil => intro g hg; exact absurd hg (List.not_mem_nil g)
  | cons f rest ih =>
    intro g hg
    by_cases hf : fieldBad data f = true
    · simp only [validate_required_fields, hf, if_true] at h
      exact absurd h (Option.some_ne_none _)
    · simp only [validate_required_fields, hf, if_false] at h
      rcases List.mem_cons.mp hg with hgf | hgr
      · subst hgf; exact Bool.eq_false_iff.mpr hf
      · exact ih h g hgr

theorem validate_stops_at_first_bad (data : List (String × Value)) (f : String) :
    ∀ pre : List String, ∀ post : List String,
    (∀ g ∈ pre, fieldBad data g = false) → fieldBad data f = true →
    validate_required_fields data (pre ++ f :: post) =
      some ("Missing required field: " ++ f) := by
  intro pre
  induction pre with
  | nil =>
    intro post _ hf
    simp only [List.nil_append, validate_required_fields, hf, if_true]
  | cons g0 rest ih =>
    intro post hpre hf
    have hg0 : fieldBad data g0 = false := hpre g0 (List.mem_cons_self g0 rest)
    simp only [List.cons_append, validate_required_fields, hg0,
      Bool.false_eq_true, if_false]
    exact ih post (fun g hg => hpre g (List.mem_cons_of_mem g0 hg)) hf

/-- C2: `validate_required_fields` reports, by raising
`ValueError("Missing required field: f")`, exactly the first field in the
required list's order that is missing from the data or has an empty
value, and returns normally (`none`) when no required field is missing or
empty.  The first conjunct ties the loop's per-field check to missing
keys and empty values. -/
theorem validate_required_first_in_order :
    (∀ (data : List (String × Value)) (f : String),
      fieldBad data f = true ↔
        (data.lookup f = none ∨
          ∃ v, data.lookup f = some v ∧ isEmptyVal v = true))
  ∧ (∀ (data : List (String × Value)) (pre : List String) (f : String)
      (post : List String),
      (∀ g ∈ pre, fieldBad data g = false) → fieldBad data f = true →
      validate_required_fields data (pre ++ f :: post) =
        some ("Missing required field: " ++ f))
  ∧ (∀ (data : List (String × Value)) (fields : List String),
      (∀ g ∈ fields, fieldBad data g = false) →
      validate_required_fields data fields = none) := by
  refine ⟨?_, ?_, ?_⟩
  · intro data f
    unfold fieldBad
    cases hv : data.lookup f with
    | none => simp
    | some v => simp
  · intro data pre f post hpre hf
    exact validate_stops_at_first_bad data f pre post hpre hf
  · intro data fields h
    exact validate_none_of_no_bad data fields h

theorem validate_required_first_in_order_witness :
    validate_required_fields
        [("name", Value.vStr "Ada"), ("email", Value.vStr "")]
        ["name", "email", "phone"] =
      some ("Missing required field: " ++ "email") ∧
    validate_required_fields [("name", Value.vStr "Ada")] ["name"] = none := by
  constructor
  · exact validate_required_first_in_order.2.1
      [("name", Value.vStr "Ada"), ("email", Value.vStr "")]
      ["name"] "email" ["phone"] (by decide) (by decide)
  · exact validate_required_first_in_order.2.2
      [("name", Value.vStr "Ada")] ["name"] (by decide)

/-- C10: the validator's notion of an empty value is exactly `None`, `''`
and `[]`; any field present with any other value — `0`, `False`, an empty
dict, a whitespace-only string — passes, and validation succeeds exactly
when every required field is present with a value outside those three. -/
theorem required_empty_values_exact :
    (∀ v : Value, isEmptyVal v = true ↔
      (v = Value.vNone ∨ v = Value.vStr "" ∨ v = Value.vList []))
  ∧ (∀ (data : List (String × Value)) (fields : List String),
      validate_required_fields data fields = none ↔
        ∀ f ∈ fields, ∃ v, data.lookup f = some v ∧ isEmptyVal v = false)
  ∧ (isEmptyVal (Value.vInt 0) = false ∧ isEmptyVal (Value.vBool false) = false ∧
      isEmptyVal (Value.vDict []) = false ∧ isEmptyVal (Value.vStr " ") = false) := by
  refine ⟨?_, ?_, by decide, by decide, by decide, by decide⟩
  · intro v
    cases v with
    | vNone => simp [isEmptyVal]
    | vBool b => simp [isEmptyVal]
    | vInt n => simp [isEmptyVal]
    | vStr s => simp [isEmptyVal]
    | vList l => simp [isEmptyVal, List.isEmpty_iff]
    | vDict d => simp [isEmptyVal]
  · intro data fields
    constructor
    · intro h f hf
      have hb : fieldBad data f = false := no_bad_of_validate_none data fields h f hf
      unfold fieldBad at hb
      cases hv : data.lookup f with
      | none => rw [hv] at hb; exact absurd hb (by decide)
      | some v => rw [hv] at hb; exact ⟨v, rfl, hb⟩
    · intro h
      apply validate_none_of_no_bad
      intro g hg
      rcases h g hg with ⟨v, hv, hemp⟩
      unfold fieldBad
      rw [hv]
      exact hemp

theorem required_empty_values_exact_witness :
    validate_required_fields
        [("count", Value.vInt 0), ("flag", Value.vBool false),
         ("meta", Value.vDict []), ("note", Value.vStr " ")]
        ["count", "flag", "meta", "note"] = none := by
  refine (required_empty_values_exact.2.1 _ _).mpr ?_
  intro f hf
  fin_cases hf
  · exact ⟨Value.vInt 0, rfl, rfl⟩
  · exact ⟨Value.vBool false, rfl, rfl⟩
  · exact ⟨Value.vDict [], rfl, rfl⟩
  · exact ⟨Value.vStr " ", rfl, rfl⟩

/-- C4: hashing records the per-call fresh salt, verification round-trips
(`verify_password p (hash_password p salt) = true` for every plaintext
and every salt the generator may draw), and any plaintext whose
recomputed hash does not match the stored hash is rejected with `false`
rather than an exception (the function is total). -/
theorem password_hash_roundtrip :
    (∀ (p : String) (salt : Nat),
      (hash_password p salt).salt = salt ∧
        verify_password p (hash_password p salt) = true)
  ∧ (∀ (q : String) (stored : BcryptHash),
      hash_password q stored.salt ≠ stored → verify_password q stored = false) := by
  constructor
  · intro p salt
    refine ⟨rfl, ?_⟩
    simp [verify_password, bcryptCheckpw, hash_password, bcryptHashpw]
  · intro q stored hne
    by_contra hver
    have hb : bcryptDigest q stored.salt = stored.digest := by
      have : verify_password q stored = true := by
        cases hv : verify_password q stored with
        | true => rfl
        | false => exact absurd hv hver
      simpa [verify_password, bcryptCheckpw] using this
    apply hne
    cases stored with
    | mk s d =>
      simp only [hash_password, bcryptHashpw]
      simp only at hb
      rw [hb]

theorem password_hash_roundtrip_witness :
    verify_password "hunter2" (hash_password "hunter2" 3) = true ∧
    verify_password "guess" (BcryptHash.mk 0 12345) = false := by
  constructor
  · exact (password_hash_roundtrip.1 "hunter2" 3).2
  · exact password_hash_roundtrip.2 "guess" (BcryptHash.mk 0 12345) (by decide)

/-- C5: when the LLM collaborator fails on the prompt (any raised
exception, carrying arbitrary provider detail `e`), `smart_fill` and
`generate_cover_letter` do not propagate it: each returns the fixed
generic `error_response` with status 500, whose message is a constant
independent of `e` and so carries no provider-specific detail. -/
theorem llm_failures_surface_generic :
    (∀ (ty input_data e : String) (llmCall : String → CallOutcome String),
      llmCall (LLMService.smartFillPrompt ty input_data) = Except.error e →
      LLMService.smart_fill ty input_data llmCall =
        ServiceResult.failure (error_response "Failed to generate description" 500))
  ∧ (∀ (u j r e : String) (llmCall : String → CallOutcome String),
      llmCall (LLMService.coverLetterPrompt u j r) = Except.error e →
      LLMService.generate_cover_letter u j r llmCall =
        ServiceResult.failure (error_response "Failed to generate cover letter" 500)) := by
  constructor
  · intro ty input_data e llmCall h
    simp [LLMService.smart_fill, h]
  · intro u j r e llmCall h
    simp [LLMService.generate_cover_letter, h]

theorem llm_failures_surface_generic_witness :
    LLMService.smart_fill "work_experience" "skills: Lean"
        (fun _ => Except.error "RateLimitError: quota exceeded") =
      ServiceResult.failure (error_response "Failed to generate description" 500) ∧
    LLMService.generate_cover_letter "u" "j" "r"
        (fun _ => Except.error "APIConnectionError") =
      ServiceResult.failure (error_response "Failed to generate cover letter" 500) := by
  constructor
  · exact llm_failures_surface_generic.1 "work_experience" "skills: Lean"
      "RateLimitError: quota exceeded" (fun _ => Except.error "RateLimitError: quota exceeded") rfl
  · exact llm_failures_surface_generic.2 "u" "j" "r" "APIConnectionError"
      (fun _ => Except.error "APIConnectionError") rfl

/-- C7: scraping a fetched page never fails on missing fields; with
neither an `h1` nor a `title` element the title is the placeholder
`"Untitled"`, and with no text matching `Company|Employer` the company is
`"Unknown Company"`. -/
theorem scrape_placeholder_fields :
    (∀ page : SoupPage, page.h1 = none → page.titleTag = none →
      (ScraperService.scrape_job_posting page).title = "Untitled")
  ∧ (∀ page : SoupPage, page.companyText = none →
      (ScraperService.scrape_job_posting page).company = "Unknown Company") := by
  constructor
  · intro page h1 ht
    cases page with
    | mk a b c d =>
      simp only at h1 ht
      subst h1; subst ht
      rfl
  · intro page hc
    cases page with
    | mk a b c d =>
      simp only at hc
      subst hc
      cases a with
      | none => rfl
      | some t => rfl

theorem scrape_placeholder_fields_witness :
    (ScraperService.scrape_job_posting
        (SoupPage.mk none none none "plain body text")).title = "Untitled" ∧
    (ScraperService.scrape_job_posting
        (SoupPage.mk none none none "plain body text")).company = "Unknown Company" := by
  constructor
  · exact scrape_placeholder_fields.1 (SoupPage.mk none none none "plain body text") rfl rfl
  · exact scrape_placeholder_fields.2 (SoupPage.mk none none none "plain body text") rfl

/-- C9: a caller-supplied data dict that itself carries a `success` key
overwrites the flag: the returned body reports `success: false` while the
status stays 200. -/
theorem success_flag_overwritten :
    success_response [("success", JVal.jBool false)] 200 =
      ([("success", JVal.jBool false)], 200) := by decide

/-- C8 counterexample: it is not true that for every data mapping the
body of `success_response` contains `success: true` — with
`data = {"success": False}` the flag is overwritten. -/
theorem success_response_claim_cex :
    (success_response [("success", JVal.jBool false)] 200).1.lookup "success" ≠
      some (JVal.jBool true) := by decide

theorem lookup_of_any_false (k : String) :
    ∀ p : JObj, p.any (fun kv => kv.1 == k) = false → List.lookup k p = none := by
  intro p
  induction p with
  | nil => intro _; rfl
  | cons kv rest ih =>
    obtain ⟨k1, v1⟩ := kv
    intro h
    simp only [List.any_cons, Bool.or_eq_false_iff] at h
    have hne : k ≠ k1 := Ne.symm (by simpa using h.1)
    simp only [List.lookup, beq_eq_false_iff_ne.mpr hne]
    exact ih h.2

theorem lookup_append_left (k : String) (v : JVal) :
    ∀ p q : JObj, List.lookup k p = some v → List.lookup k (p ++ q) = some v := by
  intro p q
  induction p with
  | nil => intro h; exact absurd h (by simp)
  | cons kv rest ih =>
    obtain ⟨k1, v1⟩ := kv
    intro h
    by_cases hk : k = k1
    · subst hk
      simpa [List.lookup] using h
    · simp only [List.lookup, beq_eq_false_iff_ne.mpr hk] at h
      simpa [List.cons_append, List.lookup, beq_eq_false_iff_ne.mpr hk] using ih h

theorem lookup_append_right (k : String) :
    ∀ p q : JObj, List.lookup k p = none → List.lookup k (p ++ q) = List.lookup k q := by
  intro p q
  induction p with
  | nil => intro _; rfl
  | cons kv rest ih =>
    obtain ⟨k1, v1⟩ := kv
    intro h
    by_cases hk : k = k1
    · subst hk
      simp [List.lookup] at h
    · simp only [List.lookup, beq_eq_false_iff_ne.mpr hk] at h
      simpa [List.cons_append, List.lookup, beq_eq_false_iff_ne.mpr hk] using ih h

theorem lookup_map_set_self (k : String) (v : JVal) :
    ∀ p : JObj, p.any (fun kv => kv.1 == k) = true →
    List.lookup k (p.map (fun kv => if kv.1 = k then (k, v) else kv)) = some v := by
  intro p
  induction p with
  | nil => intro h; simp at h
  | cons kv rest ih =>
    obtain ⟨k1, v1⟩ := kv
    intro h
    by_cases hk : k1 = k
    · rw [List.map_cons]
      simp only [if_pos hk]
      simp [List.lookup]
    · rw [List.map_cons]
      simp only [if_neg hk]
      simp only [List.any_cons, beq_eq_false_iff_ne.mpr hk, Bool.false_or] at h
      simp only [List.lookup, beq_eq_false_iff_ne.mpr (Ne.symm hk)]
      exact ih h

theorem lookup_map_set_other (k k2 : String) (v : JVal) (hne : k2 ≠ k) :
    ∀ p : JObj,
    List.lookup k2 (p.map (fun kv => if kv.1 = k then (k, v) else kv)) =
      List.lookup k2 p := by
  intro p
  induction p with
  | nil => rfl
  | cons kv rest ih =>
    obtain ⟨k1, v1⟩ := kv
    by_cases hk : k1 = k
    · subst hk
      rw [List.map_cons]
      simp only [if_pos rfl]
      simp only [List.lookup, beq_eq_false_iff_ne.mpr hne]
      exact ih
    · rw [List.map_cons]
      simp only [if_neg hk]
      simp only [List.lookup]
      cases hc : k2 == k1 with
      | true => simp only [hc]
      | false => simp only [hc]; exact ih

theorem lookup_setKey_self (p : JObj) (k : String) (v : JVal) :
    List.lookup k (setKey p k v) = some v := by
  unfold setKey
  cases h : p.any (fun kv => kv.1 == k) with
  | true =>
    simp only [if_true]
    exact lookup_map_set_self k v p h
  | false =>
    simp only [Bool.false_eq_true, if_false]
    rw [lookup_append_right k p [(k, v)] (lookup_of_any_false k p h)]
    simp [List.lookup]

theorem lookup_setKey_other (p : JObj) (k k2 : String) (v : JVal) (hne : k2 ≠ k) :
    List.lookup k2 (setKey p k v) = List.lookup k2 p := by
  unfold setKey
  cases h : p.any (fun kv => kv.1 == k) with
  | true =>
    simp only [if_true]
    exact lookup_map_set_other k k2 v hne p
  | false =>
    simp only [Bool.false_eq_true, if_false]
    cases hp : List.lookup k2 p with
    | some w => exact lookup_append_left k2 w p [(k, v)] hp
    | none =>
      rw [lookup_append_right k2 p [(k, v)] hp]
      simp [List.lookup, beq_eq_false_iff_ne.mpr hne]

theorem lookup_dictUpdate_absent (k : String) :
    ∀ (d : JObj) (p : JObj), (∀ kv ∈ d, kv.1 ≠ k) →
    List.lookup k (dictUpdate p d) = List.lookup k p := by
  intro d
  induction d with
  | nil => intro p _; rfl
  | cons kv rest ih =>
    intro p h
    simp only [dictUpdate]
    rw [ih (setKey p kv.1 kv.2) (fun g hg => h g (List.mem_cons_of_mem kv hg))]
    exact lookup_setKey_other p kv.1 k kv.2
      (Ne.symm (h kv (List.mem_cons_self kv rest)))

theorem lookup_dictUpdate_mem :
    ∀ (d : JObj) (p : JObj), (d.map Prod.fst).Nodup →
    ∀ kv ∈ d, List.lookup kv.1 (dictUpdate p d) = some kv.2 := by
  intro d
  induction d with
  | nil => intro p _ kv hkv; exact absurd hkv (List.not_mem_nil kv)
  | cons kv0 rest ih =>
    intro p hnd kv hkv
    simp only [List.map_cons, List.nodup_cons] at hnd
    rcases List.mem_cons.mp hkv with hh | ht
    · subst hh
      simp only [dictUpdate]
      rw [lookup_dictUpdate_absent kv.1 rest (setKey p kv.1 kv.2) ?_]
      · exact lookup_setKey_self p kv.1 kv.2
      · intro g hg he
        exact hnd.1 (he ▸ List.mem_map_of_mem Prod.fst hg)
    · simp only [dictUpdate]
      exact ih (setKey p kv0.1 kv0.2) hnd.2 kv ht

/-- C8 amended: `error_response` returns exactly
`{success: false, error: message}` with the given status; and for every
data mapping with distinct keys that does not itself carry a `success`
key, `success_response` returns the given status and a body that maps
`success` to `true` and each data key to its value.  (The un-amended
universal claim fails when the data mapping contains a `success` key,
which `payload.update(data)` lets overwrite the flag.) -/
theorem response_shapes_amended :
    (∀ (message : String) (status : Nat),
      error_response message status =
        ([("success", JVal.jBool false), ("error", JVal.jStr message)], status))
  ∧ (∀ (data : JObj) (status : Nat),
      (data.map Prod.fst).Nodup → (∀ kv ∈ data, kv.1 ≠ "success") →
      (success_response data status).2 = status ∧
      List.lookup "success" (success_response data status).1 =
        some (JVal.jBool true) ∧
      ∀ kv ∈ data,
        List.lookup kv.1 (success_response data status).1 = some kv.2) := by
  constructor
  · intro message status
    rfl
  · intro data status hnd hns
    cases data with
    | nil =>
      refine ⟨rfl, rfl, ?_⟩
      intro kv hkv
      exact absurd hkv (List.not_mem_nil kv)
    | cons kv0 rest =>
      refine ⟨rfl, ?_, ?_⟩
      · show List.lookup "success" (dictUpdate [("success", JVal.jBool true)] (kv0 :: rest)) =
          some (JVal.jBool true)
        rw [lookup_dictUpdate_absent "success" (kv0 :: rest)
          [("success", JVal.jBool true)] (fun g hg => hns g hg)]
        rfl
      · intro kv hkv
        show List.lookup kv.1 (dictUpdate [("success", JVal.jBool true)] (kv0 :: rest)) =
          some kv.2
        exact lookup_dictUpdate_mem (kv0 :: rest) [("success", JVal.jBool true)]
          hnd kv hkv

theorem response_shapes_amended_witness :
    error_response "oops" 404 =
      ([("success", JVal.jBool false), ("error", JVal.jStr "oops")], 404) ∧
    List.lookup "success" (success_response [("id", JVal.jNum 1)] 200).1 =
      some (JVal.jBool true) ∧
    List.lookup "id" (success_response [("id", JVal.jNum 1)] 200).1 =
      some (JVal.jNum 1) := by
  refine ⟨response_shapes_amended.1 "oops" 404, ?_, ?_⟩
  · exact (response_shapes_amended.2 [("id", JVal.jNum 1)] 200
      (by decide) (by decide)).2.1
  · exact (response_shapes_amended.2 [("id", JVal.jNum 1)] 200
      (by decide) (by decide)).2.2 ("id", JVal.jNum 1) (List.mem_cons_self _ _)

/-- C6: keyword extraction on non-empty text returns at most 20 distinct
keywords, each a capitalized all-letter word of length above 2 occurring
as a whole word of the input text; empty or absent content yields the
400 `error_response` (client-correctable) instead of keywords. -/
theorem extract_keywords_bounded :
    (ScraperService.extract_keywords none =
      KeywordsResult.err
        (error_response "No content provided for keyword extraction" 400))
  ∧ (ScraperService.extract_keywords (some []) =
      KeywordsResult.err
        (error_response "No content provided for keyword extraction" 400))
  ∧ (∀ t : List Char, t ≠ [] →
      ∃ ks, ScraperService.extract_keywords (some t) = KeywordsResult.ok ks ∧
        ks.length ≤ 20 ∧ ks.Nodup ∧
        ∀ w ∈ ks, 2 < w.length ∧ isCapWord w = true ∧ w ∈ wordRuns t) := by
  refine ⟨rfl, rfl, ?_⟩
  intro t ht
  have hne : t.isEmpty = false := by
    cases t with
    | nil => exact absurd rfl ht
    | cons c cs => rfl
  refine ⟨((findCapWords t).filter (fun w => decide (2 < w.length))).dedup.take 20,
    ?_, ?_, ?_, ?_⟩
  · simp [ScraperService.extract_keywords, hne]
  · exact List.length_take_le 20 _
  · exact List.Nodup.sublist (List.take_sublist 20 _) (List.nodup_dedup _)
  · intro w hw
    have hdedup : w ∈ ((findCapWords t).filter (fun w => decide (2 < w.length))).dedup :=
      List.take_subset 20 _ hw
    have hfil : w ∈ (findCapWords t).filter (fun w => decide (2 < w.length)) :=
      List.mem_dedup.mp hdedup
    have hpair := List.mem_filter.mp hfil
    have hcap := List.mem_filter.mp hpair.1
    exact ⟨of_decide_eq_true hpair.2, hcap.2, hcap.1⟩

theorem extract_keywords_bounded_witness :
    ∃ ks, ScraperService.extract_keywords
        (some ("Senior Rust Engineer at Acme, Go or C".toList)) =
        KeywordsResult.ok ks ∧
      ks.length ≤ 20 ∧ ks.Nodup ∧
      ∀ w ∈ ks, 2 < w.length ∧ isCapWord w = true ∧
        w ∈ wordRuns ("Senior Rust Engineer at Acme, Go or C".toList) :=
  extract_keywords_bounded.2.2 ("Senior Rust Engineer at Acme, Go or C".toList)
    (by decide)

theorem findLibExpBullet_edit (bid : Nat) (t : String) :
    ∀ lib : List LibExpBullet,
    findLibExpBullet (editLibExpBulletText lib bid t) bid =
      (findLibExpBullet lib bid).map
        (fun b => LibExpBullet.mk b.id b.experience_id b.position t) := by
  intro lib
  induction lib with
  | nil => rfl
  | cons b rest ih =>
    simp only [editLibExpBulletText, List.map_cons]
    by_cases hb : b.id = bid
    · rw [if_pos hb]
      subst hb
      simp [findLibExpBullet, List.find?]
    · rw [if_neg hb]
      have hbeq : (b.id == bid) = false := by simpa using hb
      simp only [findLibExpBullet, List.find?, hbeq]
      exact ih

theorem findLibProjBullet_edit (bid : Nat) (t : String) :
    ∀ lib : List LibProjBullet,
    findLibProjBullet (editLibProjBulletText lib bid t) bid =
      (findLibProjBullet lib bid).map
        (fun b => LibProjBullet.mk b.id b.project_id b.position t) := by
  intro lib
  induction lib with
  | nil => rfl
  | cons b rest ih =>
    simp only [editLibProjBulletText, List.map_cons]
    by_cases hb : b.id = bid
    · rw [if_pos hb]
      subst hb
      simp [findLibProjBullet, List.find?]
    · rw [if_neg hb]
      have hbeq : (b.id == bid) = false := by simpa using hb
      simp only [findLibProjBullet, List.find?, hbeq]
      exact ih

/-- C1 (spec-modelled resolution over the schema of `init.sql`): for both
experience and project bullet overrides, the resolved display text equals
the override string when it is present and non-empty, and equals the
referenced library bullet's text at resolve time otherwise; resolving
against an edited library (late binding) yields the edited text for every
override that does not override, and resolution fails closed (`none`)
when the referenced library bullet no longer exists. -/
theorem override_resolution_spec :
    (∀ (lib : List LibExpBullet) (o : ResumeExpBulletOverride) (s : String),
      o.text_override = some s → s ≠ "" →
      (findLibExpBullet lib o.lib_exp_bullet_id).isSome = true →
      resolveExpOverride lib o = some s)
  ∧ (∀ (lib : List LibExpBullet) (o : ResumeExpBulletOverride) (b : LibExpBullet),
      (o.text_override = none ∨ o.text_override = some "") →
      findLibExpBullet lib o.lib_exp_bullet_id = some b →
      resolveExpOverride lib o = some b.text)
  ∧ (∀ (lib : List LibExpBullet) (o : ResumeExpBulletOverride) (t : String),
      (o.text_override = none ∨ o.text_override = some "") →
      (findLibExpBullet lib o.lib_exp_bullet_id).isSome = true →
      resolveExpOverride (editLibExpBulletText lib o.lib_exp_bullet_id t) o = some t)
  ∧ (∀ (lib : List LibExpBullet) (o : ResumeExpBulletOverride),
      findLibExpBullet lib o.lib_exp_bullet_id = none →
      resolveExpOverride lib o = none)
  ∧ (∀ (lib : List LibProjBullet) (o : ResumeProjBulletOverride) (s : String),
      o.text_override = some s → s ≠ "" →
      (findLibProjBullet lib o.lib_proj_bullet_id).isSome = true →
      resolveProjOverride lib o = some s)
  ∧ (∀ (lib : List LibProjBullet) (o : ResumeProjBulletOverride) (b : LibProjBullet),
      (o.text_override = none ∨ o.text_override = some "") →
      findLibProjBullet lib o.lib_proj_bullet_id = some b →
      resolveProjOverride lib o = some b.text)
  ∧ (∀ (lib : List LibProjBullet) (o : ResumeProjBulletOverride) (t : String),
      (o.text_override = none ∨ o.text_override = some "") →
      (findLibProjBullet lib o.lib_proj_bullet_id).isSome = true →
      resolveProjOverride (editLibProjBulletText lib o.lib_proj_bullet_id t) o = some t)
  ∧ (∀ (lib : List LibProjBullet) (o : ResumeProjBulletOverride),
      findLibProjBullet lib o.lib_proj_bullet_id = none →
      resolveProjOverride lib o = none) := by
  refine ⟨?_, ?_, ?_, ?_, ?_, ?_, ?_, ?_⟩
  · intro lib o s hov hs hfind
    rcases Option.isSome_iff_exists.mp hfind with ⟨b, hb⟩
    simp [resolveExpOverride, hb, hov, hs]
  · intro lib o b hov hb
    rcases hov with hov | hov
    · simp [resolveExpOverride, hb, hov]
    · simp [resolveExpOverride, hb, hov]
  · intro lib o t hov hfind
    rcases Option.isSome_iff_exists.mp hfind with ⟨b, hb⟩
    have hedit := findLibExpBullet_edit o.lib_exp_bullet_id t lib
    rw [hb] at hedit
    rcases hov with hov | hov
    · simp [resolveExpOverride, hedit, hov]
    · simp [resolveExpOverride, hedit, hov]
  · intro lib o hnone
    simp [resolveExpOverride, hnone]
  · intro lib o s hov hs hfind
    rcases Option.isSome_iff_exists.mp hfind with ⟨b, hb⟩
    simp [resolveProjOverride, hb, hov, hs]
  · intro lib o b hov hb
    rcases hov with hov | hov
    · simp [resolveProjOverride, hb, hov]
    · simp [resolveProjOverride, hb, hov]
  · intro lib o t hov hfind
    rcases Option.isSome_iff_exists.mp hfind with ⟨b, hb⟩
    have hedit := findLibProjBullet_edit o.lib_proj_bullet_id t lib
    rw [hb] at hedit
    rcases hov with hov | hov
    · simp [resolveProjOverride, hedit, hov]
    · simp [resolveProjOverride, hedit, hov]
  · intro lib o hnone
    simp [resolveProjOverride, hnone]

theorem override_resolution_spec_witness :
    resolveExpOverride
        [LibExpBullet.mk 1 1 0 "Built X", LibExpBullet.mk 2 1 1 "Shipped Y"]
        (ResumeExpBulletOverride.mk 10 5 2 1 (some "Shipped Y to 10k users")) =
      some "Shipped Y to 10k users" ∧
    resolveExpOverride
        [LibExpBullet.mk 1 1 0 "Built X", LibExpBullet.mk 2 1 1 "Shipped Y"]
        (ResumeExpBulletOverride.mk 10 5 1 0 none) = some "Built X" ∧
    resolveExpOverride
        (editLibExpBulletText
          [LibExpBullet.mk 1 1 0 "Built X", LibExpBullet.mk 2 1 1 "Shipped Y"]
          1 "Built X v2")
        (ResumeExpBulletOverride.mk 10 5 1 0 none) = some "Built X v2" ∧
    resolveExpOverride [] (ResumeExpBulletOverride.mk 10 5 1 0 none) = none ∧
    resolveProjOverride [LibProjBullet.mk 4 2 0 "Designed Z"]
        (ResumeProjBulletOverride.mk 11 6 4 0 (some "")) = some "Designed Z" := by
  refine ⟨?_, ?_, ?_, ?_, ?_⟩
  · exact override_resolution_spec.1
      [LibExpBullet.mk 1 1 0 "Built X", LibExpBullet.mk 2 1 1 "Shipped Y"]
      (ResumeExpBulletOverride.mk 10 5 2 1 (some "Shipped Y to 10k users"))
      "Shipped Y to 10k users" rfl (by decide) (by decide)
  · exact override_resolution_spec.2.1
      [LibExpBullet.mk 1 1 0 "Built X", LibExpBullet.mk 2 1 1 "Shipped Y"]
      (ResumeExpBulletOverride.mk 10 5 1 0 none)
      (LibExpBullet.mk 1 1 0 "Built X") (Or.inl rfl) (by decide)
  · exact override_resolution_spec.2.2.1
      [LibExpBullet.mk 1 1 0 "Built X", LibExpBullet.mk 2 1 1 "Shipped Y"]
      (ResumeExpBulletOverride.mk 10 5 1 0 none) "Built X v2"
      (Or.inl rfl) (by decide)
  · exact override_resolution_spec.2.2.2.1 []
      (ResumeExpBulletOverride.mk 10 5 1 0 none) rfl
  · exact override_resolution_spec.2.2.2.2.2.1 [LibProjBullet.mk 4 2 0 "Designed Z"]
      (ResumeProjBulletOverride.mk 11 6 4 0 (some ""))
      (LibProjBullet.mk 4 2 0 "Designed Z") (Or.inr rfl) (by decide)

theorem word_imp_local (ch : Char) (h : isWordChar ch = true) :
    isLocalChar ch = true := by
  simp [isLocalChar, h]

theorem matchDomainPart_iff (d : List Char) :
    matchDomainPart d = true ↔
      ∃ b c : List Char, d = b ++ '.' :: c ∧
        b ≠ [] ∧ (∀ ch ∈ b, isLocalChar ch = true) ∧
        c ≠ [] ∧ (∀ ch ∈ c, isWordChar ch = true) := by
  constructor
  · intro h
    unfold matchDomainPart at h
    simp only [Bool.and_eq_true] at h
    obtain ⟨⟨hall, htld⟩, hmatch⟩ := h
    cases hd2 : d.reverse.dropWhile isWordChar with
    | nil => rw [hd2] at hmatch; exact absurd hmatch (by simp)
    | cons dot before =>
      rw [hd2] at hmatch
      simp only [Bool.and_eq_true] at hmatch
      obtain ⟨hdot, hbe⟩ := hmatch
      have hdoteq : dot = '.' := by simpa using hdot
      subst hdoteq
      have hsplit : d.reverse.takeWhile isWordChar ++ '.' :: before = d.reverse := by
        rw [← hd2]
        exact List.takeWhile_append_dropWhile isWordChar d.reverse
      have key : ∀ tl : List Char, tl ++ '.' :: before = d.reverse →
          d = before.reverse ++ '.' :: tl.reverse := by
        intro tl hteq
        have h2 := congrArg List.reverse hteq
        rw [List.reverse_reverse] at h2
        rw [← h2]
        simp [List.reverse_append]
      have hdomeq := key (d.reverse.takeWhile isWordChar) hsplit
      refine ⟨before.reverse, (d.reverse.takeWhile isWordChar).reverse, hdomeq,
        ?_, ?_, ?_, ?_⟩
      · intro he
        rw [List.reverse_eq_nil_iff] at he
        rw [he] at hbe
        simp at hbe
      · intro ch hch
        rw [List.mem_reverse] at hch
        have hmem : ch ∈ d.reverse :=
          (List.dropWhile_sublist isWordChar).subset (by rw [hd2]; exact List.mem_cons_of_mem _ hch)
        rw [List.mem_reverse] at hmem
        exact List.all_eq_true.mp hall ch hmem
      · intro he
        rw [List.reverse_eq_nil_iff] at he
        rw [he] at htld
        simp at htld
      · intro ch hch
        rw [List.mem_reverse] at hch
        exact List.mem_takeWhile_imp hch
  · rintro ⟨b, c, rfl, hb, hbl, hc, hcw⟩
    have hdW : isWordChar '.' = false := by decide
    have hall : (b ++ '.' :: c).all isLocalChar = true := by
      rw [List.all_eq_true]
      intro ch hch
      rcases List.mem_append.mp hch with hch | hch
      · exact hbl ch hch
      · rcases List.mem_cons.mp hch with hch | hch
        · rw [hch]; decide
        · exact word_imp_local ch (hcw ch hch)
    have hrev : (b ++ '.' :: c).reverse = c.reverse ++ '.' :: b.reverse := by
      simp [List.reverse_append]
    have hcrev : ∀ ch ∈ c.reverse, isWordChar ch = true := by
      intro ch hch
      exact hcw ch (List.mem_reverse.mp hch)
    have htake2 : (c.reverse ++ '.' :: b.reverse).takeWhile isWordChar = c.reverse := by
      rw [List.takeWhile_append_of_pos hcrev]
      simp [List.takeWhile_cons, hdW]
    have hdrop2 : (c.reverse ++ '.' :: b.reverse).dropWhile isWordChar = '.' :: b.reverse := by
      rw [List.dropWhile_append_of_pos hcrev]
      simp [List.dropWhile_cons, hdW]
    have hcne : (c.reverse).isEmpty = false := by
      cases hcc : c.reverse with
      | nil => exact absurd (List.reverse_eq_nil_iff.mp hcc) hc
      | cons x xs => rfl
    have hbne : (b.reverse).isEmpty = false := by
      cases hbb : b.reverse with
      | nil => exact absurd (List.reverse_eq_nil_iff.mp hbb) hb
      | cons x xs => rfl
    unfold matchDomainPart
    rw [hrev, htake2, hdrop2]
    simp [hall, hcne, hbne]

theorem matchEmailPattern_iff (l : List Char) :
    matchEmailPattern l = true ↔
      ∃ a b c : List Char,
        l = a ++ '@' :: (b ++ '.' :: c) ∧
        a ≠ [] ∧ (∀ ch ∈ a, isLocalChar ch = true) ∧
        b ≠ [] ∧ (∀ ch ∈ b, isLocalChar ch = true) ∧
        c ≠ [] ∧ (∀ ch ∈ c, isWordChar ch = true) := by
  constructor
  · intro h
    unfold matchEmailPattern at h
    cases hdrop : l.dropWhile isLocalChar with
    | nil => rw [hdrop] at h; exact absurd h (by simp)
    | cons c0 domain =>
      rw [hdrop] at h
      simp only [Bool.and_eq_true] at h
      obtain ⟨⟨hc0, hne⟩, hdom⟩ := h
      have hc0eq : c0 = '@' := by simpa using hc0
      subst hc0eq
      obtain ⟨b, c, hdomeq, hb, hbl, hc, hcw⟩ := (matchDomainPart_iff domain).mp hdom
      have hl : l = l.takeWhile isLocalChar ++ '@' :: domain := by
        rw [← hdrop]
        exact (List.takeWhile_append_dropWhile isLocalChar l).symm
      refine ⟨l.takeWhile isLocalChar, b, c, ?_, ?_, ?_, hb, hbl, hc, hcw⟩
      · conv_lhs => rw [hl]
        rw [hdomeq]
      · intro he
        rw [he] at hne
        simp at hne
      · intro ch hch
        exact List.mem_takeWhile_imp hch
  · rintro ⟨a, b, c, rfl, ha, hal, hb, hbl, hc, hcw⟩
    have hatl : isLocalChar '@' = false := by decide
    have haall : ∀ x ∈ a, isLocalChar x = true := hal
    have hdrop : (a ++ '@' :: (b ++ '.' :: c)).dropWhile isLocalChar =
        '@' :: (b ++ '.' :: c) := by
      rw [List.dropWhile_append_of_pos haall]
      simp [List.dropWhile_cons, hatl]
    have htake : (a ++ '@' :: (b ++ '.' :: c)).takeWhile isLocalChar = a := by
      rw [List.takeWhile_append_of_pos haall]
      simp [List.takeWhile_cons, hatl]
    have hdom : matchDomainPart (b ++ '.' :: c) = true :=
      (matchDomainPart_iff (b ++ '.' :: c)).mpr ⟨b, c, rfl, hb, hbl, hc, hcw⟩
    have hane : a.isEmpty = false := by
      cases a with
      | nil => exact absurd rfl ha
      | cons x xs => rfl
    unfold matchEmailPattern
    rw [hdrop, htake]
    simp [hdom, hane]

/-- C3: `validate_email` is a pure boolean function that holds exactly
when the (at most one trailing-newline-stripped, per Python's `$`) input
decomposes as one-or-more word/dot/hyphen characters, `@`, one-or-more
word/dot/hyphen characters, a dot, and one-or-more word characters — the
simple regex of the source, not full RFC 5322. -/
theorem validate_email_matches_simple_pattern (email : String) :
    validate_email email = true ↔
      ∃ a b c : List Char,
        stripOneTrailingNewline email.toList = a ++ '@' :: (b ++ '.' :: c) ∧
        a ≠ [] ∧ (∀ ch ∈ a, isLocalChar ch = true) ∧
        b ≠ [] ∧ (∀ ch ∈ b, isLocalChar ch = true) ∧
        c ≠ [] ∧ (∀ ch ∈ c, isWordChar ch = true) :=
  matchEmailPattern_iff (stripOneTrailingNewline email.toList)

theorem validate_email_matches_simple_pattern_witness :
    validate_email "a@b.c" = true :=
  (validate_email_matches_simple_pattern "a@b.c").mpr
    ⟨['a'], ['b'], ['c'], by decide, by decide, by decide, by decide,
      by decide, by decide, by decide⟩
